import Mathlib

/-!
Shallow embedding of the chip8 emulator core (src/main.cpp).

Machine integers are modelled as `Nat` with explicit reductions at the
points where the C++ code truncates: writes into `uint8_t` fields reduce
modulo 256, writes into `uint16_t` fields reduce modulo 65536.  Fallible
code paths (the `std::exit` calls on unrecognized opcode bit patterns,
the `throw` in `Memory::WriteBytes`) are modelled with sum types.
-/

namespace Chip8

/-- FIRST_NIBBLE(data): `(data >> 0x0c) & 0x0f`. -/
def firstNibble (d : Nat) : Nat := (d >>> 12) &&& 0xf

/-- SECOND_NIBBLE(data): `(data >> 0x08) & 0x0f`. -/
def secondNibble (d : Nat) : Nat := (d >>> 8) &&& 0xf

/-- THIRD_NIBBLE(data): `(data >> 0x04) & 0x0f`. -/
def thirdNibble (d : Nat) : Nat := (d >>> 4) &&& 0xf

/-- FOURTH_NIBBLE(data): `(data >> 0x00) & 0x0f`. -/
def fourthNibble (d : Nat) : Nat := (d >>> 0) &&& 0xf

/-- LSB(data): `data & 0xff`. -/
def lsb (d : Nat) : Nat := d &&& 0xff

/-- TWELVE(data): `data & 0xfff`. -/
def twelve (d : Nat) : Nat := d &&& 0xfff

/-- Index into a 16-entry register array.  The source indexes
`std::array` directly with a nibble, which is always below 16; the
reduction modulo 16 makes the embedding total. -/
def reg (i : Nat) : Fin 16 := ⟨i % 16, Nat.mod_lt i (by decide)⟩

/-- `chip8::system::Cpu`.  `PC` is a `std::size_t`, `SP`, `delayTimer`
and `soundTimer` are `uint8_t`, `I` is a `uint16_t`, `V` is an array of
16 `uint8_t` registers and `stack` an array of 16 `uint16_t` slots. -/
structure Cpu where
  PC : Nat
  SP : Nat
  I : Nat
  delayTimer : Nat
  soundTimer : Nat
  V : Fin 16 → Nat
  stack : Fin 16 → Nat

/-- Write to a `uint8_t` register array slot: the assignment truncates
the stored value to 8 bits. -/
def updV (V : Fin 16 → Nat) (i : Nat) (v : Nat) : Fin 16 → Nat :=
  fun j => if j = reg i then v % 256 else V j

/-- Write to a `uint16_t` stack slot: the assignment truncates the
stored value to 16 bits. -/
def updStack (s : Fin 16 → Nat) (i : Nat) (v : Nat) : Fin 16 → Nat :=
  fun j => if j = reg i then v % 65536 else s j

/-- `chip8::system::Memory`: a 4096-byte zero-initialized array.  The
source accesses it through `data[address]`; an out-of-range single
access is undefined behaviour there, so the store is modelled as a
total map with the 4096-byte capacity enforced in `WriteBytes`. -/
structure Memory where
  data : Nat → Nat

def Memory.Read8 (m : Memory) (address : Nat) : Nat := m.data address

/-- PACK16(data[address], data[address + 1]): big-endian pair. -/
def Memory.Read16 (m : Memory) (address : Nat) : Nat :=
  (m.data address <<< 8) ||| m.data (address + 1)

/-- `Write8`: the `uint8_t` parameter truncates the value to 8 bits. -/
def Memory.Write8 (m : Memory) (address : Nat) (value : Nat) : Memory :=
  { data := fun a => if a = address then value % 256 else m.data a }

/-- `std::copy_n(input.begin(), input.size(), dest)` where `dest` is
`data.begin()` advanced by `offset`. -/
def Memory.copyFrom (m : Memory) (input : List Nat) (offset : Nat) : Memory :=
  match input with
  | [] => m
  | b :: rest => (m.Write8 offset b).copyFrom rest (offset + 1)

/-- `Memory::WriteBytes`: rejects the write (the source throws
`std::invalid_argument`) when `input.size() + offset >= MEMORY_SIZE`,
before any byte is copied; otherwise copies all bytes. -/
def Memory.WriteBytes (m : Memory) (input : List Nat) (offset : Nat) : Option Memory :=
  if 4096 ≤ input.length + offset then none
  else some (m.copyFrom input offset)

def Memory.init : Memory := { data := fun _ => 0 }

/-- `Emulator::Status`. -/
inductive Status where
  | running
  | paused
  | waitingForKey
  | stopped
deriving DecidableEq

/-- Framebuffer write (`Screen::Draw`); the store is a 64 times 32
boolean grid, modelled as a total map on coordinates. -/
def updFb (fb : Nat → Nat → Bool) (x y : Nat) (v : Bool) : Nat → Nat → Bool :=
  fun a b => if a = x ∧ b = y then v else fb a b

/-- Keyboard write (`Keyboard::PressKey` / `ReleaseKey`); the source
array has 16 slots and asserts `key < 16` at each access. -/
def setKey (kb : Nat → Bool) (key : Nat) (v : Bool) : Nat → Bool :=
  fun j => if j = key then v else kb j

/-- The mutable fields of `chip8::Emulator`. -/
structure Emu where
  cpu : Cpu
  memory : Memory
  keyboard : Nat → Bool
  fb : Nat → Nat → Bool
  shouldRedraw : Bool
  destinationKeyRegister : Option Nat
  currentStatuts : Status

/-- Result of dispatching one decoded instruction: either the mutated
emulator, or a fatal decode error (the `std::exit` calls in the
dispatch switch, `Assignment8` and `FDispatcher` defaults). -/
inductive StepResult where
  | ok (st : Emu)
  | fatal

def setVreg (st : Emu) (i v : Nat) : Emu :=
  { st with cpu := { st.cpu with V := updV st.cpu.V i v } }

/-- `Emulator::Jump` (0x1NNN, and 0xBNNN with `hasOffset`): the target
is `TWELVE(instr) + offset`; `PC` is a `std::size_t`, no truncation. -/
def jump (st : Emu) (instr : Nat) (hasOffset : Bool) : Emu :=
  let offset := if hasOffset then st.cpu.V (reg 0) else 0
  { st with cpu := { st.cpu with PC := twelve instr + offset } }

/-- `Emulator::LoadIntoV` (0x6XNN). -/
def loadIntoV (st : Emu) (instr : Nat) : Emu :=
  setVreg st (secondNibble instr) (lsb instr)

/-- `Emulator::SetIndexRegister` (0xANNN). -/
def setIndexRegister (st : Emu) (instr : Nat) : Emu :=
  { st with cpu := { st.cpu with I := twelve instr % 65536 } }

/-- `Emulator::ClearScreen` (0x00E0): `DrawAll(false)` over the 64
times 32 grid, then mark redraw. -/
def clearScreen (st : Emu) : Emu :=
  { st with fb := fun a b => if a < 64 ∧ b < 32 then false else st.fb a b,
            shouldRedraw := true }

/-- `Emulator::Call` (0x2NNN): `SP++`, store `PC` at the new slot
(`uint16_t` slot truncates), jump to the masked address. -/
def call (st : Emu) (instr : Nat) : Emu :=
  let sp1 := (st.cpu.SP + 1) % 256
  { st with cpu := { st.cpu with
      SP := sp1,
      stack := updStack st.cpu.stack sp1 st.cpu.PC,
      PC := twelve instr } }

/-- `Emulator::ReturnFromRoutine` (0x00EE): `PC := stack[SP]`, then
`SP--` (a `uint8_t` decrement wraps at 0). -/
def returnFromRoutine (st : Emu) : Emu :=
  { st with cpu := { st.cpu with
      PC := st.cpu.stack (reg st.cpu.SP),
      SP := (st.cpu.SP + 255) % 256 } }

/-- `Emulator::Add` (0x7XNN): `cpu.V[reg] += LSB(instr)` wraps. -/
def add (st : Emu) (instr : Nat) : Emu :=
  setVreg st (secondNibble instr)
    (st.cpu.V (reg (secondNibble instr)) + lsb instr)

/-- `Emulator::SkipEqual` (0x3XNN / 0x5XY0). -/
def skipEqual (st : Emu) (instr : Nat) (compareRegister : Bool) : Emu :=
  let value := if compareRegister then st.cpu.V (reg (thirdNibble instr))
               else lsb instr
  if st.cpu.V (reg (secondNibble instr)) = value then
    { st with cpu := { st.cpu with PC := st.cpu.PC + 2 } }
  else st

/-- `Emulator::SkipNotEqual` (0x4XNN / 0x9XY0). -/
def skipNotEqual (st : Emu) (instr : Nat) (compareRegister : Bool) : Emu :=
  let value := if compareRegister then st.cpu.V (reg (thirdNibble instr))
               else lsb instr
  if st.cpu.V (reg (secondNibble instr)) ≠ value then
    { st with cpu := { st.cpu with PC := st.cpu.PC + 2 } }
  else st

/-- `Emulator::Random` (0xCXNN): `rnd` stands for `std::rand()`; the
source reduces it modulo 0x100 and masks with the low byte. -/
def random (st : Emu) (instr : Nat) (rnd : Nat) : Emu :=
  setVreg st (secondNibble instr) (lsb instr &&& (rnd % 0x100))

/-- `Emulator::SkipIfKey` (0xEX9E / 0xEXA1).  A low byte that is
neither 0x9E nor 0xA1 leaves `shouldSkip` false and performs no
mutation at all. -/
def skipIfKey (st : Emu) (instr : Nat) : Emu :=
  let vx := st.cpu.V (reg (secondNibble instr))
  let shouldSkip : Bool :=
    if lsb instr = 0x9E then st.keyboard vx
    else if lsb instr = 0xA1 then !(st.keyboard vx)
    else false
  if shouldSkip then { st with cpu := { st.cpu with PC := st.cpu.PC + 2 } }
  else st

/-- `Emulator::Assignment8` (0x8XYN): both operands are read before
the flag write, the flag register `V[0xF]` is written before the
result register `V[x]`, and the `default` branch calls `std::exit`.
`uint8_t` subtraction `vx - vy` is the two's complement residue,
written here as `(vx + 256 - vy) % 256` (the reduction is performed by
`updV` via `setVreg`). -/
def assignment8 (st : Emu) (instr : Nat) : StepResult :=
  let x := secondNibble instr
  let y := thirdNibble instr
  let op := fourthNibble instr
  let vx := st.cpu.V (reg x)
  let vy := st.cpu.V (reg y)
  if op = 0x0 then .ok (setVreg st x vy)
  else if op = 0x1 then .ok (setVreg st x (vx ||| vy))
  else if op = 0x2 then .ok (setVreg st x (vx &&& vy))
  else if op = 0x3 then .ok (setVreg st x (vx ^^^ vy))
  else if op = 0x4 then
    let flag := if 255 < vx + vy then 1 else 0
    .ok (setVreg (setVreg st 0xf flag) x (vx + vy))
  else if op = 0x5 then
    let flag := if vy < vx then 1 else 0
    .ok (setVreg (setVreg st 0xf flag) x (vx + 256 - vy))
  else if op = 0x6 then
    let flag := vx &&& 1
    .ok (setVreg (setVreg st 0xf flag) x (vx >>> 1))
  else if op = 0x7 then
    let flag := if vx < vy then 1 else 0
    .ok (setVreg (setVreg st 0xf flag) x (vy + 256 - vx))
  else if op = 0xE then
    let flag := (vx >>> 0x7) &&& 1
    .ok (setVreg (setVreg st 0xf flag) x (vx <<< 1))
  else .fatal

/-- Inner loop of `Emulator::DrawPixels`: the bit index `j` runs over
the list `[7, 6, ..., 0]`; the pixel at `(x0, y0)` is read, the sprite
bit is `spriteRow & (1 << j)`; a set bit over a set pixel clears the
pixel and raises the collision flag, otherwise the pixel becomes the
boolean reading of `pixel ^ spriteBit`; then `++x0` and the row is cut
short once `x0` reaches the right edge. -/
def drawBits (fb : Nat → Nat → Bool) (vf spriteRow x0 y0 : Nat) :
    List Nat → (Nat → Nat → Bool) × Nat
  | [] => (fb, vf)
  | j :: js =>
    let pixel := fb x0 y0
    let spriteBit := spriteRow &&& (1 <<< j)
    let next : (Nat → Nat → Bool) × Nat :=
      if spriteBit ≠ 0 ∧ pixel = true then (updFb fb x0 y0 false, 1)
      else (updFb fb x0 y0 (decide (pixel.toNat ^^^ spriteBit ≠ 0)), vf)
    if 64 ≤ x0 + 1 then next
    else drawBits next.1 next.2 spriteRow (x0 + 1) y0 js

/-- Outer loop of `Emulator::DrawPixels`: the row index `i` runs over
`[0, ..., n-1]`, each row byte is read at `I + i`, drawn with
`drawBits` starting back at column `x`, then `++y0` and drawing stops
once `y0` reaches the bottom edge. -/
def drawRows (mem : Memory) (I : Nat) (fb : Nat → Nat → Bool)
    (vf x y0 : Nat) : List Nat → (Nat → Nat → Bool) × Nat
  | [] => (fb, vf)
  | i :: is =>
    let spriteRow := mem.Read8 (I + i)
    let next := drawBits fb vf spriteRow x y0 [7, 6, 5, 4, 3, 2, 1, 0]
    if 32 ≤ y0 + 1 then next
    else drawRows mem I next.1 next.2 x (y0 + 1) is

/-- `Emulator::DrawPixels` (0xDXYN): coordinates are `V[X] % 64` and
`V[Y] % 32`, the collision flag `V[0xF]` starts at 0 and is threaded
through the loops (nothing reads it during the draw), and the redraw
flag is raised. -/
def drawPixels (st : Emu) (instr : Nat) : Emu :=
  let x := st.cpu.V (reg (secondNibble instr)) % 64
  let y := st.cpu.V (reg (thirdNibble instr)) % 32
  let n := fourthNibble instr
  let r := drawRows st.memory st.cpu.I st.fb 0 x y (List.range n)
  { st with fb := r.1,
            cpu := { st.cpu with V := updV st.cpu.V 0xf r.2 },
            shouldRedraw := true }

/-- Body of the 0xFX55 loop: `for (i = 0; i < SECOND_NIBBLE; i++)
memory.Write8(i + I, V[i])` — note the exclusive bound. -/
def fx55Store (st : Emu) (x : Nat) : Memory :=
  (List.range x).foldl
    (fun m i => m.Write8 (i + st.cpu.I) (st.cpu.V (reg i))) st.memory

/-- Body of the 0xFX65 loop: `for (i = 0; i < SECOND_NIBBLE; i++)
V[i] = memory.Read8(i + I)` — note the exclusive bound. -/
def fx65Load (st : Emu) (x : Nat) : Fin 16 → Nat :=
  (List.range x).foldl
    (fun V i => updV V i (st.memory.Read8 (i + st.cpu.I))) st.cpu.V

/-- `Emulator::FDispatcher` (0xFXNN), switching on the low byte; the
`default` branch calls `std::exit(-1)`. -/
def fDispatcher (st : Emu) (instr : Nat) : StepResult :=
  let x := secondNibble instr
  if lsb instr = 0x07 then
    .ok (setVreg st x st.cpu.delayTimer)
  else if lsb instr = 0x0A then
    .ok { st with destinationKeyRegister := some x,
                  currentStatuts := .waitingForKey }
  else if lsb instr = 0x15 then
    .ok { st with cpu := { st.cpu with delayTimer := st.cpu.V (reg x) % 256 } }
  else if lsb instr = 0x18 then
    .ok { st with cpu := { st.cpu with soundTimer := st.cpu.V (reg x) % 256 } }
  else if lsb instr = 0x1e then
    .ok { st with cpu := { st.cpu with I := (st.cpu.I + st.cpu.V (reg x)) % 65536 } }
  else if lsb instr = 0x29 then
    .ok { st with cpu := { st.cpu with I := (st.cpu.V (reg x) * 5 + 0x50) % 65536 } }
  else if lsb instr = 0x33 then
    let vx := st.cpu.V (reg x)
    .ok { st with memory :=
      ((st.memory.Write8 st.cpu.I ((vx % 1000) / 100)).Write8
        (st.cpu.I + 1) ((vx % 100) / 10)).Write8 (st.cpu.I + 2) (vx % 10) }
  else if lsb instr = 0x55 then
    .ok { st with memory := fx55Store st x }
  else if lsb instr = 0x65 then
    .ok { st with cpu := { st.cpu with V := fx65Load st x } }
  else .fatal

/-- The decode switch in `Emulator::Run`, applied after the fetch has
already advanced `PC` by 2.  Class 0x0 accepts only 0x00E0 and 0x00EE
and otherwise exits; every other 4-bit class has a case. -/
def execute (rnd : Nat) (st : Emu) (instr : Nat) : StepResult :=
  let opcode := firstNibble instr
  if opcode = 0x0 then
    if instr = 0x00E0 then .ok (clearScreen st)
    else if instr = 0x00EE then .ok (returnFromRoutine st)
    else .fatal
  else if opcode = 0x1 then .ok (jump st instr false)
  else if opcode = 0x2 then .ok (call st instr)
  else if opcode = 0x3 then .ok (skipEqual st instr false)
  else if opcode = 0x4 then .ok (skipNotEqual st instr false)
  else if opcode = 0x5 then .ok (skipEqual st instr true)
  else if opcode = 0x6 then .ok (loadIntoV st instr)
  else if opcode = 0x7 then .ok (add st instr)
  else if opcode = 0x8 then assignment8 st instr
  else if opcode = 0x9 then .ok (skipNotEqual st instr true)
  else if opcode = 0xA then .ok (setIndexRegister st instr)
  else if opcode = 0xB then .ok (jump st instr true)
  else if opcode = 0xC then .ok (random st instr rnd)
  else if opcode = 0xD then .ok (drawPixels st instr)
  else if opcode = 0xE then .ok (skipIfKey st instr)
  else if opcode = 0xF then fDispatcher st instr
  else .fatal

/-- Host events delivered by `Screen::PollEvent`; keys carry the SDL
keycode (the ASCII value for the digit and letter keys). -/
inductive Event where
  | quit
  | keyUp (key : Nat)
  | keyDown (key : Nat)
  | other

/-- Outcome of the event callback: either the process exits with the
given code (`std::exit`) or the emulator continues in a new state. -/
inductive EventOutcome where
  | exit (code : Nat)
  | cont (st : Emu)

/-- The lambda passed to `screen.PollEvent` in `Emulator::Run`.
SDL_QUIT exits with EXIT_FAILURE (1).  A key-down of Escape (27) or q
(113) also exits with EXIT_FAILURE.  Digit keys 48..57 map to 0..9 and
letter keys 97..102 map to 0xA..0xF; `pressedKey` stays 0 for any
other key.  Whenever `destinationKeyRegister` holds a register, the
key-down branch writes `pressedKey` there, clears the register and
sets the status to RUNNING — for every non-quit key. -/
def handleEvent (st : Emu) (e : Event) : EventOutcome :=
  match e with
  | .quit => .exit 1
  | .keyUp key =>
    let st1 := if 48 ≤ key ∧ key ≤ 57 then
        { st with keyboard := setKey st.keyboard (key - 48) false } else st
    let st2 := if 97 ≤ key ∧ key ≤ 102 then
        { st1 with keyboard := setKey st1.keyboard (key - 97 + 10) false } else st1
    .cont st2
  | .keyDown key =>
    if key = 27 ∨ key = 113 then .exit 1
    else
      let pressedKey :=
        if 48 ≤ key ∧ key ≤ 57 then key - 48
        else if 97 ≤ key ∧ key ≤ 102 then key - 97 + 10
        else 0
      let st1 :=
        if (48 ≤ key ∧ key ≤ 57) ∨ (97 ≤ key ∧ key ≤ 102) then
          { st with keyboard := setKey st.keyboard pressedKey true }
        else st
      match st1.destinationKeyRegister with
      | some x => .cont { st1 with
          cpu := { st1.cpu with V := updV st1.cpu.V x pressedKey },
          destinationKeyRegister := none,
          currentStatuts := .running }
      | none => .cont st1
  | .other => .cont st

/-- `while (SDL_PollEvent(&e)) callback(e)`: events are handled in
order; a `std::exit` inside the callback abandons the rest. -/
def pollEvents (st : Emu) : List Event → EventOutcome
  | [] => .cont st
  | e :: es =>
    match handleEvent st e with
    | .exit c => .exit c
    | .cont st1 => pollEvents st1 es

/-- The timer decrements at the top of each `Run` iteration. -/
def decTimers (st : Emu) : Emu :=
  { st with cpu := { st.cpu with
      delayTimer := if 0 < st.cpu.delayTimer then st.cpu.delayTimer - 1
                    else st.cpu.delayTimer,
      soundTimer := if 0 < st.cpu.soundTimer then st.cpu.soundTimer - 1
                    else st.cpu.soundTimer } }

/-- Outcome of one iteration of the `Run` loop. -/
inductive TickResult where
  | exit (code : Nat)
  | fatal
  | next (st : Emu)

/-- One iteration of the `Run` loop body: decrement timers, poll the
pending events (a quit exits the process at once), skip the fetch when
the status is not RUNNING, otherwise fetch the big-endian word at
`PC`, advance `PC` by 2 and dispatch. -/
def tick (rnd : Nat) (st : Emu) (events : List Event) : TickResult :=
  let st0 := decTimers st
  match pollEvents st0 events with
  | .exit c => .exit c
  | .cont st1 =>
    if st1.currentStatuts ≠ Status.running then .next st1
    else
      let instr := st1.memory.Read16 st1.cpu.PC
      let st2 := { st1 with cpu := { st1.cpu with PC := st1.cpu.PC + 2 } }
      match execute rnd st2 instr with
      | .ok st3 => .next st3
      | .fatal => .fatal

/-- Initial CPU state: `PC = 0x200`, everything else zero. -/
def Cpu.init : Cpu :=
  { PC := 0x200, SP := 0, I := 0, delayTimer := 0, soundTimer := 0,
    V := fun _ => 0, stack := fun _ => 0 }

/-- Freshly constructed emulator. -/
def Emu.init : Emu :=
  { cpu := Cpu.init, memory := Memory.init, keyboard := fun _ => false,
    fb := fun _ _ => false, shouldRedraw := false,
    destinationKeyRegister := none, currentStatuts := .running }

/-- Value of register `i` in a dispatch result. -/
def StepResult.getV : StepResult → Nat → Option Nat
  | .ok st, i => some (st.cpu.V (reg i))
  | .fatal, _ => none

/-- Program counter of a dispatch result. -/
def StepResult.pcOf : StepResult → Option Nat
  | .ok st => some st.cpu.PC
  | .fatal => none

/-- Index register of a dispatch result. -/
def StepResult.idxOf : StepResult → Option Nat
  | .ok st => some st.cpu.I
  | .fatal => none

/-- Memory byte of a dispatch result. -/
def StepResult.mem8 : StepResult → Nat → Option Nat
  | .ok st, a => some (st.memory.Read8 a)
  | .fatal, _ => none

/-- Driver status of an event-callback outcome. -/
def EventOutcome.statusOf : EventOutcome → Option Status
  | .exit _ => none
  | .cont st => some st.currentStatuts

/-- Value of register `i` in an event-callback outcome. -/
def EventOutcome.getV : EventOutcome → Nat → Option Nat
  | .exit _, _ => none
  | .cont st, i => some (st.cpu.V (reg i))

/-- Pending destination register in an event-callback outcome. -/
def EventOutcome.destOf : EventOutcome → Option (Option Nat)
  | .exit _ => none
  | .cont st => some st.destinationKeyRegister

/-! ## Helper lemmas -/

lemma and_fifteen_lt (d : Nat) : d &&& 0xf < 16 :=
  Nat.lt_succ_of_le Nat.and_le_right

lemma secondNibble_lt (d : Nat) : secondNibble d < 16 := and_fifteen_lt _

lemma thirdNibble_lt (d : Nat) : thirdNibble d < 16 := and_fifteen_lt _

lemma fourthNibble_lt (d : Nat) : fourthNibble d < 16 := and_fifteen_lt _

lemma twelve_lt (d : Nat) : twelve d < 4096 :=
  Nat.lt_succ_of_le Nat.and_le_right

lemma reg_eq_iff (i j : Nat) : reg i = reg j ↔ i % 16 = j % 16 := by
  simp [reg, Fin.ext_iff]

@[simp] lemma updV_same (V : Fin 16 → Nat) (i v : Nat) :
    updV V i v (reg i) = v % 256 := by simp [updV]

lemma updV_diff (V : Fin 16 → Nat) (i j v : Nat) (h : i % 16 ≠ j % 16) :
    updV V i v (reg j) = V (reg j) := by
  unfold updV
  rw [if_neg]
  intro hc
  exact h (((reg_eq_iff j i).mp hc).symm)

@[simp] lemma getV_ok (st : Emu) (i : Nat) :
    (StepResult.ok st).getV i = some (st.cpu.V (reg i)) := rfl

@[simp] lemma pcOf_ok (st : Emu) : (StepResult.ok st).pcOf = some st.cpu.PC := rfl

@[simp] lemma idxOf_ok (st : Emu) : (StepResult.ok st).idxOf = some st.cpu.I := rfl

@[simp] lemma mem8_ok (st : Emu) (a : Nat) :
    (StepResult.ok st).mem8 a = some (st.memory.Read8 a) := rfl

lemma execute_eq_assignment8 (rnd : Nat) (st : Emu) (instr : Nat)
    (h : firstNibble instr = 0x8) : execute rnd st instr = assignment8 st instr := by
  simp [execute, h]

lemma execute_eq_fDispatcher (rnd : Nat) (st : Emu) (instr : Nat)
    (h : firstNibble instr = 0xF) : execute rnd st instr = fDispatcher st instr := by
  simp [execute, h]

lemma execute_eq_skipIfKey (rnd : Nat) (st : Emu) (instr : Nat)
    (h : firstNibble instr = 0xE) : execute rnd st instr = .ok (skipIfKey st instr) := by
  simp [execute, h]

lemma execute_eq_jump (rnd : Nat) (st : Emu) (instr : Nat)
    (h : firstNibble instr = 0x1) : execute rnd st instr = .ok (jump st instr false) := by
  simp [execute, h]

lemma execute_eq_call (rnd : Nat) (st : Emu) (instr : Nat)
    (h : firstNibble instr = 0x2) : execute rnd st instr = .ok (call st instr) := by
  simp [execute, h]

lemma execute_eq_setIndex (rnd : Nat) (st : Emu) (instr : Nat)
    (h : firstNibble instr = 0xA) :
    execute rnd st instr = .ok (setIndexRegister st instr) := by
  simp [execute, h]

lemma execute_eq_jumpOffset (rnd : Nat) (st : Emu) (instr : Nat)
    (h : firstNibble instr = 0xB) : execute rnd st instr = .ok (jump st instr true) := by
  simp [execute, h]

/-! ## Claim C7: 0x8XY4 adds with carry flag -/

/-- State for the C7 counterexample: VF = 100, V0 = 200. -/
def stClaim7x : Emu :=
  { Emu.init with cpu :=
    { Cpu.init with
        V := fun j => if j = reg 15 then 100 else if j = reg 0 then 200 else 0 } }

/-- C7 counterexample.  The claim quantifies over every X, but for
X = 0xF it fails: executing 0x8F04 with VF = 100 and V0 = 200 has
a + b = 300 above 255, so the claim demands VF = 1, yet the final VF
is the wrapped sum 44 (the flag write is overwritten by the result
write into VX = VF). -/
theorem claim7_counterexample :
    (execute 0 stClaim7x 0x8F04).getV 0xF = some 44 ∧
    some (44 : Nat) ≠ some 1 ∧ 255 < 100 + 200 := by
  decide

/-- C7.  For all 8-bit values a, b with VX = a and VY = b before
execution and X distinct from the flag register, executing 0x8XY4 sets
VX to (a + b) mod 256 and sets VF to 1 iff a + b exceeds 255.  (The
restriction X different from 0xF is forced by the register aliasing
exhibited in the C7 counterexample: for X = 0xF the flag write is
overwritten by the result write.) -/
theorem claim7_add_with_carry (rnd : Nat) (st : Emu) (instr a b : Nat)
    (h1 : firstNibble instr = 0x8) (h4 : fourthNibble instr = 0x4)
    (hx : secondNibble instr ≠ 0xF)
    (ha : st.cpu.V (reg (secondNibble instr)) = a)
    (hb : st.cpu.V (reg (thirdNibble instr)) = b)
    (ha8 : a < 256) (hb8 : b < 256) :
    (execute rnd st instr).getV (secondNibble instr) = some ((a + b) % 256) ∧
    ((execute rnd st instr).getV 0xF = some 1 ↔ 255 < a + b) := by
  rw [execute_eq_assignment8 rnd st instr h1]
  have hx16 : secondNibble instr % 16 = secondNibble instr :=
    Nat.mod_eq_of_lt (secondNibble_lt instr)
  have hdiff : (0xF : Nat) % 16 ≠ secondNibble instr % 16 := by
    rw [hx16]; simpa using fun hc => hx hc.symm
  simp only [assignment8, h4]
  norm_num
  constructor
  · simp [setVreg, ha, hb]
  · simp only [setVreg, getV_ok]
    rw [show ((0xF : Nat) = 15) from rfl] at hdiff ⊢
    rw [updV_diff _ _ _ _ (by simpa using fun hc => hx (by omega)), updV_same, ha, hb]
    by_cases hab : 255 < a + b
    · simp [hab]
    · simp [hab]

/-- Witness for C7 at a concrete state: V1 = 200, V2 = 100,
instruction 0x8124. -/
def stClaim7 : Emu :=
  { Emu.init with cpu :=
    { Cpu.init with
        V := fun j => if j = reg 1 then 200 else if j = reg 2 then 100 else 0 } }

theorem claim7_add_with_carry_witness :
    (execute 0 stClaim7 0x8124).getV (secondNibble 0x8124) = some ((200 + 100) % 256) ∧
    ((execute 0 stClaim7 0x8124).getV 0xF = some 1 ↔ 255 < 200 + 100) :=
  claim7_add_with_carry 0 stClaim7 0x8124 200 100 (by decide) (by decide)
    (by decide) (by decide) (by decide) (by decide) (by decide)

/-! ## Claim C8: call followed by return restores PC and SP -/

/-- C8.  With the stack pointer below the overflow depth (and the
program counter representable in a 16-bit stack slot), `call`
immediately followed by `return` restores the program counter to its
value at the call dispatch (the value just after the call instruction
was fetched, since the fetch advanced it) and restores the stack
pointer. -/
theorem claim8_call_return (st : Emu) (instr : Nat)
    (hsp : st.cpu.SP < 15) (hpc : st.cpu.PC < 65536) :
    (returnFromRoutine (call st instr)).cpu.PC = st.cpu.PC ∧
    (returnFromRoutine (call st instr)).cpu.SP = st.cpu.SP := by
  have h1 : (st.cpu.SP + 1) % 256 = st.cpu.SP + 1 := by omega
  constructor
  · simp only [call, returnFromRoutine, updStack, h1]
    simp [Nat.mod_eq_of_lt hpc]
  · simp only [call, returnFromRoutine]
    omega

/-- Witness for C8 at the freshly constructed emulator and the call
instruction 0x2345. -/
theorem claim8_call_return_witness :
    (returnFromRoutine (call Emu.init 0x2345)).cpu.PC = Emu.init.cpu.PC ∧
    (returnFromRoutine (call Emu.init 0x2345)).cpu.SP = Emu.init.cpu.SP :=
  claim8_call_return Emu.init 0x2345 (by decide) (by decide)

/-! ## Claim C9: WriteBytes bounds check and copy -/

@[simp] lemma write8_read (m : Memory) (addr v a : Nat) :
    (m.Write8 addr v).Read8 a = if a = addr then v % 256 else m.Read8 a := rfl

lemma copyFrom_read (input : List Nat) (offset : Nat) (m : Memory) (a : Nat) :
    (m.copyFrom input offset).Read8 a =
      if offset ≤ a ∧ a < offset + input.length
      then (input.getD (a - offset) 0) % 256 else m.Read8 a := by
  induction input generalizing m offset with
  | nil =>
    simp only [Memory.copyFrom, List.length_nil, Nat.add_zero]
    rw [if_neg (by omega)]
  | cons b rest ih =>
    show ((m.Write8 offset b).copyFrom rest (offset + 1)).Read8 a = _
    rw [ih]
    by_cases h1 : offset + 1 ≤ a ∧ a < offset + 1 + rest.length
    · rw [if_pos h1, if_pos (by simp; omega)]
      have hs : a - offset = (a - (offset + 1)) + 1 := by omega
      rw [hs, List.getD_cons_succ]
    · rw [if_neg h1, write8_read]
      by_cases h2 : a = offset
      · subst h2
        rw [if_pos rfl, if_pos (by simp only [List.length_cons]; omega)]
        simp
      · rw [if_neg h2, if_neg (by simp; omega)]

/-- C9.  `WriteBytes` fails exactly when `offset + length ≥ 4096`; in
that case the error is raised before any byte is copied (the embedding
returns `none` without producing a store, so the memory the caller
holds is untouched).  On success every byte of the sequence lands at
the consecutive addresses from `offset` and every other address is
unchanged. -/
theorem claim9_writeBytes (m : Memory) (input : List Nat) (offset : Nat) :
    (m.WriteBytes input offset = none ↔ 4096 ≤ offset + input.length) ∧
    ∀ m2, m.WriteBytes input offset = some m2 →
      (∀ i, i < input.length → m2.Read8 (offset + i) = (input.getD i 0) % 256) ∧
      (∀ a, a < offset ∨ offset + input.length ≤ a → m2.Read8 a = m.Read8 a) := by
  constructor
  · unfold Memory.WriteBytes
    by_cases h : 4096 ≤ input.length + offset
    · simp [h]; omega
    · simp [h]; omega
  · intro m2 hm2
    unfold Memory.WriteBytes at hm2
    by_cases h : 4096 ≤ input.length + offset
    · simp [h] at hm2
    · rw [if_neg h] at hm2
      obtain rfl : m.copyFrom input offset = m2 := Option.some.inj hm2
      constructor
      · intro i hi
        rw [copyFrom_read, if_pos (by omega)]
        congr 2
        omega
      · intro a hva
        rw [copyFrom_read, if_neg (by omega)]

/-- Witness for C9 at a concrete store, byte list and offset. -/
theorem claim9_writeBytes_witness :
    (Memory.init.WriteBytes [7, 8] 0x200 = none ↔ 4096 ≤ 0x200 + [7, 8].length) ∧
    ∀ m2, Memory.init.WriteBytes [7, 8] 0x200 = some m2 →
      (∀ i, i < [7, 8].length →
        m2.Read8 (0x200 + i) = ([7, 8].getD i 0) % 256) ∧
      (∀ a, a < 0x200 ∨ 0x200 + [7, 8].length ≤ a →
        m2.Read8 a = Memory.init.Read8 a) :=
  claim9_writeBytes Memory.init [7, 8] 0x200

/-! ## Claim C10: arithmetic group with X = 0xF leaves VF = result -/

/-- C10.  For every 0x8XYN instruction with N in 4, 5, 6, 7, 0xE and
X = 0xF, the final value of the flag register is the wrapped
arithmetic result, not the carry/borrow/shifted-out flag: the flag
write happens first and the result write to VX = VF overwrites it. -/
theorem claim10_vf_aliasing (rnd : Nat) (st : Emu) (instr : Nat)
    (h1 : firstNibble instr = 0x8) (hx : secondNibble instr = 0xF) :
    (fourthNibble instr = 0x4 → (execute rnd st instr).getV 0xF =
      some ((st.cpu.V (reg 0xF) + st.cpu.V (reg (thirdNibble instr))) % 256)) ∧
    (fourthNibble instr = 0x5 → (execute rnd st instr).getV 0xF =
      some ((st.cpu.V (reg 0xF) + 256 - st.cpu.V (reg (thirdNibble instr))) % 256)) ∧
    (fourthNibble instr = 0x6 → (execute rnd st instr).getV 0xF =
      some ((st.cpu.V (reg 0xF) >>> 1) % 256)) ∧
    (fourthNibble instr = 0x7 → (execute rnd st instr).getV 0xF =
      some ((st.cpu.V (reg (thirdNibble instr)) + 256 - st.cpu.V (reg 0xF)) % 256)) ∧
    (fourthNibble instr = 0xE → (execute rnd st instr).getV 0xF =
      some ((st.cpu.V (reg 0xF) <<< 1) % 256)) := by
  rw [execute_eq_assignment8 rnd st instr h1]
  refine ⟨fun h4 => ?_, fun h4 => ?_, fun h4 => ?_, fun h4 => ?_, fun h4 => ?_⟩ <;>
    simp [assignment8, h4, hx, setVreg]

/-- Witness for C10 at a concrete state (VF = 100, V2 = 100) and the
instruction 0x8F24 (so the sum 200 fits and the carry is 0, yet VF
ends at 200). -/
def stClaim10 : Emu :=
  { Emu.init with cpu :=
    { Cpu.init with
        V := fun j => if j = reg 15 then 100 else if j = reg 2 then 100 else 0 } }

theorem claim10_vf_aliasing_witness :
    (execute 0 stClaim10 0x8F24).getV 0xF =
      some ((stClaim10.cpu.V (reg 0xF) + stClaim10.cpu.V (reg (thirdNibble 0x8F24))) % 256) :=
  (claim10_vf_aliasing 0 stClaim10 0x8F24 (by decide) (by decide)).1 (by decide)

/-! ## Claim C1: 0xFX55 / 0xFX65 exclude VX (code bug evidence) -/

/-- State for the C1 evaluation: V0 = 0xAB, V1 = 0xCD, V2 = 0x12,
index register 0x300, memory zeroed. -/
def stClaim1a : Emu :=
  { Emu.init with cpu :=
    { Cpu.init with
        I := 0x300,
        V := fun j =>
          if j = reg 0 then 0xAB else if j = reg 1 then 0xCD
          else if j = reg 2 then 0x12 else 0 } }

/-- State for the C1 load evaluation: memory 0xAB, 0xCD, 0x12 at
0x300.., registers zeroed, index register 0x300. -/
def stClaim1b : Emu :=
  { Emu.init with
      cpu := { Cpu.init with I := 0x300 },
      memory := { data := fun a =>
        if a = 0x300 then 0xAB else if a = 0x301 then 0xCD
        else if a = 0x302 then 0x12 else 0 } }

/-- C1 evidence.  The claim (and the referenced standard mnemonic
`LD [I], Vx` in the source comments) requires V0..VX inclusive, but the
loop bound `i < SECOND_NIBBLE(instr)` is exclusive: executing 0xF255
stores V0 and V1 but leaves memory at index+2 untouched (it stays 0
although V2 = 0x12), and executing 0xF265 loads V0 and V1 but leaves
V2 untouched (it stays 0 although memory holds 0x12 at index+2). -/
theorem claim1_fx55_fx65_exclusive_evidence :
    (execute 0 stClaim1a 0xF255).mem8 0x300 = some 0xAB ∧
    (execute 0 stClaim1a 0xF255).mem8 0x301 = some 0xCD ∧
    (execute 0 stClaim1a 0xF255).mem8 0x302 = some 0 ∧
    (execute 0 stClaim1b 0xF265).getV 0 = some 0xAB ∧
    (execute 0 stClaim1b 0xF265).getV 1 = some 0xCD ∧
    (execute 0 stClaim1b 0xF265).getV 2 = some 0 := by
  decide

/-! ## Claim C2: unrecognized patterns fatal — refuted for class 0xE -/

/-- C2 counterexample.  The word 0xE0A2 is not one of the 35 table
entries (its low byte is neither 0x9E nor 0xA1), yet dispatching it is
a silent no-op: the state is returned unchanged and no fatal decode
error is raised. -/
theorem claim2_counterexample :
    execute 0 Emu.init 0xE0A2 = .ok Emu.init ∧
    execute 0 Emu.init 0xE0A2 ≠ .fatal := by
  constructor
  · rfl
  · rw [show execute 0 Emu.init 0xE0A2 = .ok Emu.init from rfl]
    intro h
    exact StepResult.noConfusion h

/-- C2 as amended.  Decode errors in the classes that check their
subcode — 0x0 (only 0x00E0 and 0x00EE accepted), 0x8 (operator nibble)
and 0xF (low byte) — are fatal and terminate the run, but a word of
the form 0xEXNN whose low byte is neither 0x9E nor 0xA1 is dispatched
as a silent no-op that returns the state unchanged. -/
theorem claim2_unrecognized_amended (rnd : Nat) (st : Emu) (instr : Nat) :
    (firstNibble instr = 0x0 → instr ≠ 0x00E0 → instr ≠ 0x00EE →
      execute rnd st instr = .fatal) ∧
    (firstNibble instr = 0x8 →
      fourthNibble instr ≠ 0x0 → fourthNibble instr ≠ 0x1 →
      fourthNibble instr ≠ 0x2 → fourthNibble instr ≠ 0x3 →
      fourthNibble instr ≠ 0x4 → fourthNibble instr ≠ 0x5 →
      fourthNibble instr ≠ 0x6 → fourthNibble instr ≠ 0x7 →
      fourthNibble instr ≠ 0xE → execute rnd st instr = .fatal) ∧
    (firstNibble instr = 0xF →
      lsb instr ≠ 0x07 → lsb instr ≠ 0x0A → lsb instr ≠ 0x15 →
      lsb instr ≠ 0x18 → lsb instr ≠ 0x1e → lsb instr ≠ 0x29 →
      lsb instr ≠ 0x33 → lsb instr ≠ 0x55 → lsb instr ≠ 0x65 →
      execute rnd st instr = .fatal) ∧
    (firstNibble instr = 0xE → lsb instr ≠ 0x9E → lsb instr ≠ 0xA1 →
      execute rnd st instr = .ok st) := by
  refine ⟨fun h h1 h2 => ?_, fun h h1 h2 h3 h4 h5 h6 h7 h8 h9 => ?_,
    fun h h1 h2 h3 h4 h5 h6 h7 h8 h9 => ?_, fun h h1 h2 => ?_⟩
  · simp [execute, h, h1, h2]
  · rw [execute_eq_assignment8 rnd st instr h]
    simp [assignment8, h1, h2, h3, h4, h5, h6, h7, h8, h9]
  · rw [execute_eq_fDispatcher rnd st instr h]
    simp [fDispatcher, h1, h2, h3, h4, h5, h6, h7, h8, h9]
  · rw [execute_eq_skipIfKey rnd st instr h]
    simp [skipIfKey, h1, h2]

/-- Witness for the amended C2 at the concrete no-op word 0xE0A2. -/
theorem claim2_unrecognized_amended_witness :
    execute 0 Emu.init 0xE0A2 = .ok Emu.init :=
  (claim2_unrecognized_amended 0 Emu.init 0xE0A2).2.2.2
    (by decide) (by decide) (by decide)

/-! ## Claim C3: 12-bit invariant on I and PC — refuted for 0xFX1E -/

/-- State for the C3 counterexample: index register 0xFFF, V1 = 1. -/
def stClaim3 : Emu :=
  { Emu.init with cpu :=
    { Cpu.init with
        I := 0xFFF,
        V := fun j => if j = reg 1 then 1 else 0 } }

/-- C3 counterexample.  Executing 0xF11E (index += V1) with index
0xFFF and V1 = 1 leaves the index register at 0x1000 = 4096, which is
not below 4096: the claimed 12-bit mask invariant fails. -/
theorem claim3_counterexample :
    (execute 0 stClaim3 0xF11E).idxOf = some 4096 ∧ ¬(4096 < 4096) := by
  decide

/-- C3 as amended.  The handlers that mask do keep 12 bits: 0x1NNN and
0x2NNN set the program counter to the masked NNN and 0xANNN sets the
index register to the masked NNN, all below 4096.  But 0xFX1E adds VX
to the index register with only the 16-bit wrap of the register, so
the index can reach 4096 and beyond, and 0xBNNN jumps to masked NNN
plus V0, a sum that is not re-masked and can exceed 4095. -/
theorem claim3_mask_amended (rnd : Nat) (st : Emu) (instr : Nat) :
    (firstNibble instr = 0x1 →
      (execute rnd st instr).pcOf = some (twelve instr) ∧ twelve instr < 4096) ∧
    (firstNibble instr = 0x2 →
      (execute rnd st instr).pcOf = some (twelve instr) ∧ twelve instr < 4096) ∧
    (firstNibble instr = 0xA →
      (execute rnd st instr).idxOf = some (twelve instr) ∧ twelve instr < 4096) ∧
    (firstNibble instr = 0xF → lsb instr = 0x1e →
      (execute rnd st instr).idxOf =
        some ((st.cpu.I + st.cpu.V (reg (secondNibble instr))) % 65536)) ∧
    (firstNibble instr = 0xB →
      (execute rnd st instr).pcOf = some (twelve instr + st.cpu.V (reg 0))) := by
  refine ⟨fun h => ?_, fun h => ?_, fun h => ?_, fun h h1 => ?_, fun h => ?_⟩
  · rw [execute_eq_jump rnd st instr h]
    exact ⟨by simp [jump], twelve_lt instr⟩
  · rw [execute_eq_call rnd st instr h]
    exact ⟨by simp [call], twelve_lt instr⟩
  · rw [execute_eq_setIndex rnd st instr h]
    refine ⟨?_, twelve_lt instr⟩
    have h16 : twelve instr < 65536 := lt_trans (twelve_lt instr) (by omega)
    simp [setIndexRegister, Nat.mod_eq_of_lt h16]
  · rw [execute_eq_fDispatcher rnd st instr h]
    simp [fDispatcher, h1]
  · rw [execute_eq_jumpOffset rnd st instr h]
    simp [jump]

/-- Witness for the amended C3 at the counterexample state: the 0xFX1E
branch evaluated at 0xF11E. -/
theorem claim3_mask_amended_witness :
    (execute 0 stClaim3 0xF11E).idxOf =
      some ((stClaim3.cpu.I + stClaim3.cpu.V (reg (secondNibble 0xF11E))) % 65536) :=
  (claim3_mask_amended 0 stClaim3 0xF11E).2.2.2.1 (by decide) (by decide)

/-! ## Claim C4: quit handling — refuted (exit(EXIT_FAILURE), no Stopped) -/

lemma pollEvents_append (st : Emu) (evs evs2 : List Event) :
    pollEvents st (evs ++ evs2) =
      match pollEvents st evs with
      | .exit c => .exit c
      | .cont st1 => pollEvents st1 evs2 := by
  induction evs generalizing st with
  | nil => rfl
  | cons e es ih =>
    rcases hh : handleEvent st e with c | st2
    · simp only [List.cons_append, pollEvents, hh]
    · simp only [List.cons_append, pollEvents, hh]
      exact ih st2

/-- C4 counterexample.  The quit signal makes the event callback exit
the process with code 1 = EXIT_FAILURE: no state — in particular no
state in the Stopped status — is ever produced, and the exit code is
nonzero, against the claimed clean transition to Stopped followed by
an exit with code zero. -/
theorem claim4_counterexample :
    handleEvent Emu.init .quit = .exit 1 ∧
    (handleEvent Emu.init .quit).statusOf ≠ some Status.stopped ∧
    (1 : Nat) ≠ 0 :=
  ⟨rfl, by decide, by decide⟩

/-- C4 as amended.  A quit signal received during event polling makes
the driver iteration exit the process immediately with the nonzero
code EXIT_FAILURE = 1, before any further instruction is fetched or
executed; no transition to Stopped happens — indeed the event callback
never produces the Stopped status (it preserves the status or sets
Running), so the zero-exit path of `main` behind the Stopped loop exit
is not what a quit reaches. -/
theorem claim4_quit_amended (rnd : Nat) (st st1 : Emu) (evs es : List Event) :
    (pollEvents (decTimers st) evs = .cont st1 →
      tick rnd st (evs ++ Event.quit :: es) = .exit 1) ∧
    (∀ e st2, handleEvent st e = .cont st2 →
      st2.currentStatuts = st.currentStatuts ∨ st2.currentStatuts = Status.running) ∧
    (1 : Nat) ≠ 0 := by
  refine ⟨fun h => ?_, fun e st2 h => ?_, by decide⟩
  · simp only [tick, pollEvents_append, h]
    rfl
  · cases e with
    | quit => simp [handleEvent] at h
    | keyUp key =>
      left
      simp only [handleEvent] at h
      injection h with h2
      subst h2
      split_ifs <;> rfl
    | keyDown key =>
      by_cases hq : key = 27 ∨ key = 113
      · simp only [handleEvent, if_pos hq] at h
        exact EventOutcome.noConfusion h
      · rcases hdest : st.destinationKeyRegister with _ | x
        · left
          simp only [handleEvent, if_neg hq] at h
          split_ifs at h <;> simp only [hdest] at h <;> injection h with h2 <;>
            subst h2 <;> rfl
        · right
          simp only [handleEvent, if_neg hq] at h
          split_ifs at h <;> simp only [hdest] at h <;> injection h with h2 <;>
            subst h2 <;> rfl
    | other =>
      left
      injection h with h2
      subst h2
      rfl

/-- Witness for the amended C4: a quit event with no preceding events
exits the iteration with code 1. -/
theorem claim4_quit_amended_witness :
    tick 0 Emu.init ([] ++ Event.quit :: []) = .exit 1 :=
  (claim4_quit_amended 0 Emu.init (decTimers Emu.init) [] []).1 rfl

/-! ## Claim C5: key-down while waiting — refuted for unmapped keys -/

/-- State for the C5 counterexample: waiting for a key with
destination register 3, which currently holds 7. -/
def stClaim5 : Emu :=
  { Emu.init with
      destinationKeyRegister := some 3,
      currentStatuts := .waitingForKey,
      cpu := { Cpu.init with V := fun j => if j = reg 3 then 7 else 0 } }

/-- C5 counterexample.  A key-down of the unmapped key with code 120
(the letter x) while waiting is NOT ignored: the destination register
V3 is overwritten with 0 (its previous value was 7) and the status
moves to Running instead of staying WaitingForKey. -/
theorem claim5_counterexample :
    (handleEvent stClaim5 (.keyDown 120)).getV 3 = some 0 ∧
    (handleEvent stClaim5 (.keyDown 120)).statusOf = some Status.running ∧
    (handleEvent stClaim5 (.keyDown 120)).destOf = some none ∧
    stClaim5.cpu.V (reg 3) = 7 ∧
    stClaim5.currentStatuts = Status.waitingForKey := by
  decide

/-- C5 as amended.  While a destination register is pending, ANY
key-down other than the quit keys (Escape 27 and q 113, which exit the
process) writes into the destination register and transitions to
Running: a mapped key (digits 48..57, letters 97..102) writes its hex
value 0x0..0xF, and any other key writes 0. -/
theorem claim5_waitkey_amended (st : Emu) (x key : Nat)
    (hdest : st.destinationKeyRegister = some x)
    (hq1 : key ≠ 27) (hq2 : key ≠ 113) :
    (handleEvent st (.keyDown key)).getV x =
      some ((if 48 ≤ key ∧ key ≤ 57 then key - 48
             else if 97 ≤ key ∧ key ≤ 102 then key - 97 + 10 else 0) % 256) ∧
    (handleEvent st (.keyDown key)).statusOf = some Status.running ∧
    (handleEvent st (.keyDown key)).destOf = some none := by
  have hq : ¬(key = 27 ∨ key = 113) := by tauto
  simp only [handleEvent, if_neg hq]
  split_ifs <;>
    first
      | tauto
      | simp [hdest, EventOutcome.getV, EventOutcome.statusOf, EventOutcome.destOf,
          updV_same]

/-- Witness for the amended C5: key 98 (the letter b) at the waiting
state writes 0xB and resumes. -/
theorem claim5_waitkey_amended_witness :
    (handleEvent stClaim5 (.keyDown 98)).getV 3 =
      some ((if 48 ≤ 98 ∧ 98 ≤ 57 then 98 - 48
             else if 97 ≤ 98 ∧ 98 ≤ 102 then 98 - 97 + 10 else 0) % 256) ∧
    (handleEvent stClaim5 (.keyDown 98)).statusOf = some Status.running ∧
    (handleEvent stClaim5 (.keyDown 98)).destOf = some none :=
  claim5_waitkey_amended stClaim5 3 98 (by decide) (by decide) (by decide)

/-! ## Claim C6: drawing the same sprite twice restores the framebuffer -/

lemma updFb_hit (fb : Nat → Nat → Bool) (x y : Nat) (v : Bool) :
    updFb fb x y v x y = v := by simp [updFb]

lemma updFb_miss (fb : Nat → Nat → Bool) (x y : Nat) (v : Bool) (a b : Nat)
    (h : ¬(a = x ∧ b = y)) : updFb fb x y v a b = fb a b := by
  simp only [updFb]
  rw [if_neg h]

lemma updFb_collapse (fb : Nat → Nat → Bool) (x y : Nat) (v w : Bool) :
    updFb (updFb fb x y v) x y w = updFb fb x y w := by
  funext a b
  by_cases h : a = x ∧ b = y <;> simp [updFb, h]

lemma updFb_self (fb : Nat → Nat → Bool) (x y : Nat) :
    updFb fb x y (fb x y) = fb := by
  funext a b
  by_cases h : a = x ∧ b = y
  · obtain ⟨rfl, rfl⟩ := h
    simp [updFb]
  · simp [updFb, h]

lemma updFb_comm (fb : Nat → Nat → Bool) (a b x y : Nat) (v w : Bool)
    (h : ¬(a = x ∧ b = y)) :
    updFb (updFb fb a b v) x y w = updFb (updFb fb x y w) a b v := by
  funext p q
  simp only [updFb]
  by_cases h1 : p = x ∧ q = y
  · rw [if_pos h1]
    by_cases h2 : p = a ∧ q = b
    · exact absurd ⟨h2.1.symm.trans h1.1, h2.2.symm.trans h1.2⟩ h
    · rw [if_neg h2, if_pos h1]
  · rw [if_neg h1]
    by_cases h2 : p = a ∧ q = b
    · rw [if_pos h2, if_pos h2]
    · rw [if_neg h2, if_neg h2, if_neg h1]

lemma bool_xor_cancel (p s : Bool) : xor (xor p s) s = p := by
  cases p <;> cases s <;> rfl

lemma drawStep_val (p : Bool) (s : Nat) (h : ¬(s ≠ 0 ∧ p = true)) :
    decide (p.toNat ^^^ s ≠ 0) = xor p (decide (s ≠ 0)) := by
  by_cases hs : s = 0
  · subst hs
    cases p <;> simp
  · have hp : p = false := by
      cases p
      · rfl
      · exact absurd ⟨hs, rfl⟩ h
    subst hp
    simp [hs]

lemma drawBits_cons (fb : Nat → Nat → Bool) (vf row x0 y0 j : Nat) (js : List Nat) :
    drawBits fb vf row x0 y0 (j :: js) =
      if 64 ≤ x0 + 1 then
        (updFb fb x0 y0 (xor (fb x0 y0) (decide (row &&& (1 <<< j) ≠ 0))),
         if row &&& (1 <<< j) ≠ 0 ∧ fb x0 y0 = true then 1 else vf)
      else
        drawBits (updFb fb x0 y0 (xor (fb x0 y0) (decide (row &&& (1 <<< j) ≠ 0))))
          (if row &&& (1 <<< j) ≠ 0 ∧ fb x0 y0 = true then 1 else vf)
          row (x0 + 1) y0 js := by
  simp only [drawBits]
  by_cases hc : row &&& (1 <<< j) ≠ 0 ∧ fb x0 y0 = true
  · obtain ⟨hs, hp⟩ := hc
    simp [hs, hp]
  · rw [if_neg hc]
    rw [drawStep_val (fb x0 y0) (row &&& (1 <<< j)) hc]
    rw [if_neg hc]

lemma drawBits_cons_brk (fb : Nat → Nat → Bool) (vf row x0 y0 j : Nat)
    (js : List Nat) (hbrk : 64 ≤ x0 + 1) :
    drawBits fb vf row x0 y0 (j :: js) =
      (updFb fb x0 y0 (xor (fb x0 y0) (decide (row &&& (1 <<< j) ≠ 0))),
       if row &&& (1 <<< j) ≠ 0 ∧ fb x0 y0 = true then 1 else vf) := by
  rw [drawBits_cons, if_pos hbrk]

lemma drawBits_cons_go (fb : Nat → Nat → Bool) (vf row x0 y0 j : Nat)
    (js : List Nat) (hbrk : ¬64 ≤ x0 + 1) :
    drawBits fb vf row x0 y0 (j :: js) =
      drawBits (updFb fb x0 y0 (xor (fb x0 y0) (decide (row &&& (1 <<< j) ≠ 0))))
        (if row &&& (1 <<< j) ≠ 0 ∧ fb x0 y0 = true then 1 else vf)
        row (x0 + 1) y0 js := by
  rw [drawBits_cons, if_neg hbrk]

lemma drawBits_frame (js : List Nat) (fb : Nat → Nat → Bool)
    (vf row x0 y0 a b : Nat) (h : a < x0 ∨ b ≠ y0) :
    (drawBits fb vf row x0 y0 js).1 a b = fb a b := by
  induction js generalizing fb vf x0 with
  | nil => rfl
  | cons j js ih =>
    have hm : ¬(a = x0 ∧ b = y0) := by
      rintro ⟨rfl, rfl⟩
      rcases h with h | h
      · omega
      · exact h rfl
    by_cases hbrk : 64 ≤ x0 + 1
    · rw [drawBits_cons_brk fb vf row x0 y0 j js hbrk]
      exact updFb_miss _ _ _ _ _ _ hm
    · rw [drawBits_cons_go fb vf row x0 y0 j js hbrk]
      rw [ih _ _ (x0 + 1) (by rcases h with h | h; exact Or.inl (by omega); exact Or.inr h)]
      exact updFb_miss _ _ _ _ _ _ hm

lemma drawBits_updFb_comm (js : List Nat) (fb : Nat → Nat → Bool)
    (vf row x0 y0 a b : Nat) (v : Bool) (h : a < x0 ∨ b ≠ y0) :
    drawBits (updFb fb a b v) vf row x0 y0 js =
      (updFb (drawBits fb vf row x0 y0 js).1 a b v,
       (drawBits fb vf row x0 y0 js).2) := by
  induction js generalizing fb vf x0 with
  | nil => simp [drawBits]
  | cons j js ih =>
    have hm : ¬(x0 = a ∧ y0 = b) := by
      rintro ⟨rfl, rfl⟩
      rcases h with h | h
      · omega
      · exact h rfl
    have hm2 : ¬(a = x0 ∧ b = y0) := fun hc => hm ⟨hc.1.symm, hc.2.symm⟩
    by_cases hbrk : 64 ≤ x0 + 1
    · rw [drawBits_cons_brk (updFb fb a b v) vf row x0 y0 j js hbrk,
          drawBits_cons_brk fb vf row x0 y0 j js hbrk]
      rw [updFb_miss fb a b v x0 y0 hm]
      rw [updFb_comm fb a b x0 y0 v _ hm2]
    · rw [drawBits_cons_go (updFb fb a b v) vf row x0 y0 j js hbrk,
          drawBits_cons_go fb vf row x0 y0 j js hbrk]
      rw [updFb_miss fb a b v x0 y0 hm]
      rw [updFb_comm fb a b x0 y0 v _ hm2]
      exact ih _ _ (x0 + 1)
        (by rcases h with h | h; exact Or.inl (by omega); exact Or.inr h)

lemma drawBits_invol (js : List Nat) (x0 : Nat) (fb : Nat → Nat → Bool)
    (vf1 vf2 row y0 : Nat) :
    (drawBits (drawBits fb vf1 row x0 y0 js).1 vf2 row x0 y0 js).1 = fb := by
  induction js generalizing x0 fb vf1 vf2 with
  | nil => rfl
  | cons j js ih =>
    by_cases hbrk : 64 ≤ x0 + 1
    · rw [drawBits_cons_brk fb vf1 row x0 y0 j js hbrk]
      dsimp only
      rw [drawBits_cons_brk _ vf2 row x0 y0 j js hbrk]
      dsimp only
      rw [updFb_hit, updFb_collapse, bool_xor_cancel, updFb_self]
    · rw [drawBits_cons_go fb vf1 row x0 y0 j js hbrk]
      rw [drawBits_cons_go _ vf2 row x0 y0 j js hbrk]
      rw [drawBits_frame js _ _ row (x0 + 1) y0 x0 y0 (Or.inl (by omega))]
      rw [updFb_hit, bool_xor_cancel]
      rw [drawBits_updFb_comm js _ _ row (x0 + 1) y0 x0 y0 (fb x0 y0)
        (Or.inl (by omega))]
      dsimp only
      rw [ih (x0 + 1) (updFb fb x0 y0 (xor (fb x0 y0)
        (decide (row &&& (1 <<< j) ≠ 0)))) _ _]
      rw [updFb_collapse, updFb_self]

lemma drawRows_cons_brk (mem : Memory) (I : Nat) (fb : Nat → Nat → Bool)
    (vf x y0 i : Nat) (is : List Nat) (hbrk : 32 ≤ y0 + 1) :
    drawRows mem I fb vf x y0 (i :: is) =
      drawBits fb vf (mem.Read8 (I + i)) x y0 [7, 6, 5, 4, 3, 2, 1, 0] := by
  simp only [drawRows]
  rw [if_pos hbrk]

lemma drawRows_cons_go (mem : Memory) (I : Nat) (fb : Nat → Nat → Bool)
    (vf x y0 i : Nat) (is : List Nat) (hbrk : ¬32 ≤ y0 + 1) :
    drawRows mem I fb vf x y0 (i :: is) =
      drawRows mem I
        (drawBits fb vf (mem.Read8 (I + i)) x y0 [7, 6, 5, 4, 3, 2, 1, 0]).1
        (drawBits fb vf (mem.Read8 (I + i)) x y0 [7, 6, 5, 4, 3, 2, 1, 0]).2
        x (y0 + 1) is := by
  simp only [drawRows]
  rw [if_neg hbrk]

lemma drawRows_frame (is : List Nat) (mem : Memory) (I : Nat)
    (fb : Nat → Nat → Bool) (vf x y0 a b : Nat) (h : b < y0) :
    (drawRows mem I fb vf x y0 is).1 a b = fb a b := by
  induction is generalizing fb vf y0 with
  | nil => rfl
  | cons i is ih =>
    by_cases hbrk : 32 ≤ y0 + 1
    · rw [drawRows_cons_brk mem I fb vf x y0 i is hbrk]
      exact drawBits_frame _ _ _ _ _ _ _ _ (Or.inr (by omega))
    · rw [drawRows_cons_go mem I fb vf x y0 i is hbrk]
      rw [ih _ _ (y0 + 1) (by omega)]
      exact drawBits_frame _ _ _ _ _ _ _ _ (Or.inr (by omega))

lemma drawRows_updFb_comm (is : List Nat) (mem : Memory) (I : Nat)
    (fb : Nat → Nat → Bool) (vf x y0 a b : Nat) (v : Bool) (h : b < y0) :
    drawRows mem I (updFb fb a b v) vf x y0 is =
      (updFb (drawRows mem I fb vf x y0 is).1 a b v,
       (drawRows mem I fb vf x y0 is).2) := by
  induction is generalizing fb vf y0 with
  | nil => simp [drawRows]
  | cons i is ih =>
    by_cases hbrk : 32 ≤ y0 + 1
    · rw [drawRows_cons_brk mem I (updFb fb a b v) vf x y0 i is hbrk,
          drawRows_cons_brk mem I fb vf x y0 i is hbrk]
      exact drawBits_updFb_comm _ _ _ _ _ _ _ _ _ (Or.inr (by omega))
    · rw [drawRows_cons_go mem I (updFb fb a b v) vf x y0 i is hbrk,
          drawRows_cons_go mem I fb vf x y0 i is hbrk]
      rw [drawBits_updFb_comm _ fb vf (mem.Read8 (I + i)) x y0 a b v
        (Or.inr (by omega))]
      dsimp only
      exact ih _ _ (y0 + 1) (by omega)

lemma drawBits_drawRows_swap (js is : List Nat) (mem : Memory) (I : Nat)
    (fbX : Nat → Nat → Bool) (vfb vfr row x0 x y0 : Nat) :
    drawBits (drawRows mem I fbX vfr x (y0 + 1) is).1 vfb row x0 y0 js =
      ((drawRows mem I (drawBits fbX vfb row x0 y0 js).1 vfr x (y0 + 1) is).1,
       (drawBits fbX vfb row x0 y0 js).2) := by
  induction js generalizing fbX vfb x0 with
  | nil => simp [drawBits]
  | cons j js ih =>
    have hread : (drawRows mem I fbX vfr x (y0 + 1) is).1 x0 y0 = fbX x0 y0 :=
      drawRows_frame _ _ _ _ _ _ _ _ _ (by omega)
    by_cases hbrk : 64 ≤ x0 + 1
    · rw [drawBits_cons_brk _ vfb row x0 y0 j js hbrk,
          drawBits_cons_brk fbX vfb row x0 y0 j js hbrk]
      rw [hread]
      have hcomm := congrArg Prod.fst (drawRows_updFb_comm is mem I fbX vfr x
        (y0 + 1) x0 y0
        (xor (fbX x0 y0) (decide (row &&& (1 <<< j) ≠ 0))) (by omega))
      dsimp only at hcomm
      rw [← hcomm]
    · rw [drawBits_cons_go _ vfb row x0 y0 j js hbrk,
          drawBits_cons_go fbX vfb row x0 y0 j js hbrk]
      rw [hread]
      have hcomm := congrArg Prod.fst (drawRows_updFb_comm is mem I fbX vfr x
        (y0 + 1) x0 y0
        (xor (fbX x0 y0) (decide (row &&& (1 <<< j) ≠ 0))) (by omega))
      dsimp only at hcomm
      rw [← hcomm]
      exact ih _ _ (x0 + 1)

lemma drawRows_invol (is : List Nat) (y0 : Nat) (fb : Nat → Nat → Bool)
    (vf1 vf2 : Nat) (mem : Memory) (I x : Nat) :
    (drawRows mem I (drawRows mem I fb vf1 x y0 is).1 vf2 x y0 is).1 = fb := by
  induction is generalizing y0 fb vf1 vf2 with
  | nil => rfl
  | cons i is ih =>
    by_cases hbrk : 32 ≤ y0 + 1
    · rw [drawRows_cons_brk mem I fb vf1 x y0 i is hbrk]
      rw [drawRows_cons_brk mem I _ vf2 x y0 i is hbrk]
      exact drawBits_invol _ _ _ _ _ _ _
    · rw [drawRows_cons_go mem I fb vf1 x y0 i is hbrk]
      rw [drawRows_cons_go mem I _ vf2 x y0 i is hbrk]
      rw [drawBits_drawRows_swap _ is mem I _ vf2 _ (mem.Read8 (I + i)) x x y0]
      rw [drawBits_invol]
      dsimp only
      exact ih (y0 + 1) fb _ _

/-- C6.  For every framebuffer, sprite (the rows read from memory at
the index register) and coordinate register values: drawing the same
0xDXYN sprite twice in succession with no intervening mutation
restores every pixel — the collision branch clears the pixel, which
coincides with the XOR of two set bits, so colliding and non-colliding
sprites alike round-trip.  The second conjunct ties the loop pair to
the 0xDXYN handler: `drawPixels` computes its framebuffer exactly as
this double-`drawRows` expression with the registers of the decoded
operands. -/
theorem claim6_draw_twice_involution (mem : Memory) (Ival n vx vy : Nat)
    (fb : Nat → Nat → Bool) :
    (drawRows mem Ival
        (drawRows mem Ival fb 0 (vx % 64) (vy % 32) (List.range n)).1
        0 (vx % 64) (vy % 32) (List.range n)).1 = fb ∧
    ∀ st instr, (drawPixels st instr).fb =
      (drawRows st.memory st.cpu.I st.fb 0
        (st.cpu.V (reg (secondNibble instr)) % 64)
        (st.cpu.V (reg (thirdNibble instr)) % 32)
        (List.range (fourthNibble instr))).1 :=
  ⟨drawRows_invol _ _ _ _ _ _ _ _, fun _ _ => rfl⟩

end Chip8
